import Mathlib

/-!
Verification of the disk-backed logging subsystem in `src/logging_manager/mod.rs`
(repository `funkiben/ticker_strat`).

The Rust code is shallowly embedded as executable Lean definitions:

* filesystem state is explicit — a directory is a list of entries, a file an
  entry with a name and a byte size;
* fallible operations return `Option` (`none` models a Rust panic of the
  surrounding function where noted);
* machine integers (`usize` sizes) are modelled as `Nat`; the quota loop never
  underflows because `total_size` always equals the sum of a live window of
  file sizes.

The module `logging_manager/time_manager` is referenced by the code but is not
part of the sources; the definitions taken from it are marked
`Modelled from the spec:` and follow the specification text.
-/

/-- Log levels of the external `log` crate:
`enum Level { Error = 1, Warn, Info, Debug, Trace }`. -/
inductive Level where
  | error
  | warn
  | info
  | debug
  | trace
deriving DecidableEq

/-- Discriminants of `log::Level`; the crate derives `PartialOrd`/`Ord` from them,
so `Error < Warn < Info < Debug < Trace`. -/
def levelNum : Level → Nat
  | .error => 1
  | .warn => 2
  | .info => 3
  | .debug => 4
  | .trace => 5

/-- `impl log::Log for LoggingService`, `fn enabled`:
`metadata.level() <= Level::Info`. -/
def enabled (lvl : Level) : Bool :=
  decide (levelNum lvl ≤ levelNum Level.info)

/-- The `match record.level()` in `fn log` of `impl log::Log for LoggingService`:
the fixed level tag placed into the message body. -/
def levelTag : Level → String
  | .error => " ERROR "
  | .debug => " DEBUG "
  | .info  => " INFO  "
  | .trace => " TRACE "
  | .warn  => " WARN  "

/-- `struct MessageBody { level: String, content: String }`. -/
structure MessageBody where
  level : String
  content : String
deriving DecidableEq

/-- `enum LoggingCommands { Kill, Message(MessageBody) }`. -/
inductive LoggingCommands where
  | kill
  | message (body : MessageBody)
deriving DecidableEq

/-- The line built at `file.write_all` in `fn log`:
`curr_timestamp() + level + content + "\n"`. -/
def formatLine (timestamp : String) (body : MessageBody) : String :=
  timestamp ++ body.level ++ body.content ++ "\n"

/-- Outcome of one invocation of the write pipeline `fn log`
(`Ok(())` or an `std::io::Error`). -/
inductive IOOutcome where
  | ok
  | ioError (msg : String)
deriving DecidableEq

/-- State of the worker thread spawned in `LoggingService::new` after handling
one received command: keep looping, break out of the loop, or panic
(`expect` on an `Err`). -/
inductive WorkerNext where
  | running
  | terminated
  | panicked (msg : String)
deriving DecidableEq

/-- One iteration of the worker loop in `LoggingService::new`:
`match receiver.recv().unwrap() { Message(m) => log(m, &options).expect(...), Kill => break }`.
`logResult` gives the outcome of the write pipeline for the received body. -/
def workerHandle (cmd : LoggingCommands) (logResult : MessageBody → IOOutcome) : WorkerNext :=
  match cmd with
  | .kill => .terminated
  | .message body =>
    match logResult body with
    | .ok => .running
    | .ioError _ => .panicked "Logging service failed when receiving message."

/-- Outcome of `mpsc::SyncSender::send`: `Ok` while the receiver (worker) is
alive, `Err` once the consuming end has been dropped. -/
inductive SendOutcome where
  | delivered
  | closed
deriving DecidableEq

/-- What the calling thread observes from a frontend call. -/
inductive CallerOutcome where
  | enqueued
  | panickedCaller (msg : String)
deriving DecidableEq

/-- `fn log` of `impl log::Log for LoggingService`: build the `MessageBody`
(level tag string plus the record text) and `send(...).expect(...)`.
`send` abstracts the channel: its result depends on whether the worker still
holds the receiver. -/
def frontendLog (send : LoggingCommands → SendOutcome) (lvl : Level) (text : String) :
    CallerOutcome :=
  match send (.message ⟨levelTag lvl, text⟩) with
  | .delivered => .enqueued
  | .closed => .panickedCaller "Failed to send message to logging service."

/-- A matched rotation file: name and size in bytes
(`DirEntry` restricted to what `check_size` reads: `file_name`, `metadata().len()`). -/
structure FileEntry where
  name : String
  size : Nat
deriving DecidableEq

/-- Total size in bytes of a list of files. -/
def sumSizes (files : List FileEntry) : Nat :=
  (files.map FileEntry.size).sum

/-- Byte-wise lexicographic order used by `files.sort_by(|a, b| a.file_name().cmp(&b.file_name()))`:
`OsString` comparison is byte order, which on valid UTF-8 equals code-point
lexicographic order on the characters. -/
def lexLe : List Char → List Char → Bool
  | [], _ => true
  | _ :: _, [] => false
  | a :: as, b :: bs =>
    if a.toNat < b.toNat then true
    else if b.toNat < a.toNat then false
    else lexLe as bs

/-- File order by name, as used in `get_sorted_files_from_dir`. -/
def fileLe (a b : FileEntry) : Prop :=
  lexLe a.name.data b.name.data = true

instance : DecidableRel fileLe :=
  fun a b => inferInstanceAs (Decidable (lexLe a.name.data b.name.data = true))

/-- `files.sort_by(|a, b| a.file_name().cmp(&b.file_name()))` (a stable sort by name). -/
def sortFiles (files : List FileEntry) : List FileEntry :=
  List.insertionSort fileLe files

/-- One raw directory entry as observed by `get_sorted_files_from_dir`:
whether `file_type()?.is_file()` holds, the result of
`file_name().into_string()` (`none` models a name that is not valid Unicode,
where the code does `continue`), and `metadata()?.len()`. -/
structure DirEntryModel where
  isFile : Bool
  fileName : Option String
  size : Nat
deriving DecidableEq

/-- Gregorian leap-year rule. -/
def isLeapYear (y : Nat) : Bool :=
  (y % 4 == 0 && y % 100 != 0) || y % 400 == 0

/-- Days in a month of the Gregorian calendar. -/
def daysInMonth (y m : Nat) : Nat :=
  if m = 2 then (if isLeapYear y then 29 else 28)
  else if m = 4 ∨ m = 6 ∨ m = 9 ∨ m = 11 then 30
  else 31

/-- Numeric value of a decimal digit character. -/
def digitVal (c : Char) : Nat :=
  c.toNat - '0'.toNat

/-- Modelled from the spec: `time_manager::check_date` (the module
`logging_manager/time_manager.rs` is not among the sources). Per the spec, a
name is matched when its first ten characters are "the 10-character date
pattern" `YYYY_MM_DD` "whose date component parses as a valid calendar date". -/
def check_date (s : String) : Bool :=
  match s.data with
  | [y1, y2, y3, y4, u1, m1, m2, u2, d1, d2] =>
    (y1.isDigit && y2.isDigit && y3.isDigit && y4.isDigit &&
     m1.isDigit && m2.isDigit && d1.isDigit && d2.isDigit &&
     (u1 == '_') && (u2 == '_')) &&
    (let y := ((digitVal y1 * 10 + digitVal y2) * 10 + digitVal y3) * 10 + digitVal y4
     let m := digitVal m1 * 10 + digitVal m2
     let d := digitVal d1 * 10 + digitVal d2
     Nat.ble 1 m && Nat.ble m 12 && Nat.ble 1 d && Nat.ble d (daysInMonth y m))
  | _ => false

/-- Rust byte slicing `&s[0..n]` on a UTF-8 string, on the character list of
the string: `some` returns the characters making up the first `n` bytes;
`none` models the panic raised when `n` is past the end of the string or not
on a character boundary. -/
def takeBytes : List Char → Nat → Option (List Char)
  | _, 0 => some []
  | [], _ => none
  | c :: cs, n =>
    if c.utf8Size ≤ n then (takeBytes cs (n - c.utf8Size)).map (fun l => c :: l)
    else none

/-- Rust `&s[0..n]` as a `String`; `none` models the slicing panic. -/
def byteSlice (s : String) (n : Nat) : Option String :=
  (takeBytes s.data n).map List.asString

/-- Rust `str::ends_with` for string patterns. -/
def strEndsWith (s pat : String) : Bool :=
  pat.data.isSuffixOf s.data

/-- The body of the `for file in read_dir(..)` loop of `get_sorted_files_from_dir`
for one entry: `some (some f)` — the entry is pushed onto `files`;
`some none` — the entry is skipped (not a regular file, non-Unicode name, or
name check failed); `none` — the iteration panics (the `&filename[0..10]`
slice in `filename.ends_with(".log") && check_date(&filename[0..10])`). -/
def selectEntry (e : DirEntryModel) : Option (Option FileEntry) :=
  if e.isFile then
    match e.fileName with
    | none => some none
    | some nm =>
      if strEndsWith nm ".log" then
        match byteSlice nm 10 with
        | none => none
        | some first10 =>
          if check_date first10 then some (some ⟨nm, e.size⟩) else some none
      else some none
  else some none

/-- The whole entry loop of `get_sorted_files_from_dir`: collect the kept
entries in directory order; `none` models a panic while processing any entry. -/
def collectFiles : List DirEntryModel → Option (List FileEntry)
  | [] => some []
  | e :: es =>
    match selectEntry e with
    | none => none
    | some none => collectFiles es
    | some (some f) => (collectFiles es).map (fun fs => f :: fs)

/-- `fn get_sorted_files_from_dir`: filter the directory listing, then sort by
file name; `none` models a panic. -/
def get_sorted_files_from_dir (entries : List DirEntryModel) : Option (List FileEntry) :=
  (collectFiles entries).map sortFiles

/-- The inner `while total_size > options.max_dir_size && start_index <= i`
loop of `fn check_size`, acting on the live window `files[start_index ..= i]`:
`total_size` is always the sum of the window's sizes, deleting
`files[start_index]` and subtracting its size is dropping the window's head,
and `start_index <= i` is the window being nonempty. -/
def shrinkWindow (maxDirSize : Nat) : List FileEntry → List FileEntry
  | [] => []
  | f :: rest =>
    if maxDirSize < sumSizes (f :: rest) then shrinkWindow maxDirSize rest
    else f :: rest

/-- The outer `for i in 0..files.len()` loop of `fn check_size`: each step adds
`files[i]` to the window (`total_size += files[i].len()`) and then runs the
inner while loop. The final window is `files[start_index ..]`, the files left
on disk after the pass. -/
def evictGo (maxDirSize : Nat) : List FileEntry → List FileEntry → List FileEntry
  | window, [] => window
  | window, f :: rest => evictGo maxDirSize (shrinkWindow maxDirSize (window ++ [f])) rest

/-- `fn check_size`: list and sort the rotation files, then delete oldest
files while the directory is over budget. Returns the files remaining after
the pass; `none` models a panic inside `get_sorted_files_from_dir`. -/
def check_size (entries : List DirEntryModel) (max_dir_size : Nat) :
    Option (List FileEntry) :=
  (get_sorted_files_from_dir entries).map (fun files => evictGo max_dir_size [] files)

/-- `format!("{}.log", time_manager::curr_datestamp())` — the target rotation
file name for a given datestamp. -/
def logFileName (datestamp : String) : String :=
  datestamp ++ ".log"

/-- `OpenOptions::new().append(true).create(true)` followed by `write_all` of a
line of `n` bytes: append to the named file if it exists, create it otherwise. -/
def appendLine : List FileEntry → String → Nat → List FileEntry
  | [], name, n => [⟨name, n⟩]
  | f :: fs, name, n =>
    if f.name = name then ⟨f.name, f.size + n⟩ :: fs
    else f :: appendLine fs name n

/-- Observable filesystem actions of one `fn log` invocation, in program order. -/
inductive WriteEvent where
  | createDir
  | runQuota (pre : List FileEntry)
  | openFile (name : String)
  | writeLine (bytes : Nat)
  | syncAll
deriving DecidableEq

/-- `fn log(message_body, options)`, the write pipeline, on a directory state
(`none`: the logging directory does not exist; `some files`: it exists and
holds the matched rotation files `files`). Returns the sequence of filesystem
actions in program order and the directory contents after the call:
if the directory is missing it is created and quota enforcement is skipped,
otherwise `check_size` runs on the pre-write sizes; then the day's file is
opened in append-create mode, the line is written and the file is synced. -/
def log (dir : Option (List FileEntry)) (max_dir_size : Nat) (datestamp : String)
    (lineBytes : Nat) : List WriteEvent × List FileEntry :=
  match dir with
  | none =>
    ([.createDir, .openFile (logFileName datestamp), .writeLine lineBytes, .syncAll],
     appendLine [] (logFileName datestamp) lineBytes)
  | some files =>
    ([.runQuota files, .openFile (logFileName datestamp), .writeLine lineBytes, .syncAll],
     appendLine (evictGo max_dir_size [] (sortFiles files)) (logFileName datestamp) lineBytes)

/-- A sequence of write-pipeline invocations: each write carries the datestamp
at write time and the byte length of its serialized line. -/
def runWrites (max_dir_size : Nat) :
    Option (List FileEntry) → List (String × Nat) → Option (List FileEntry)
  | dir, [] => dir
  | dir, (d, n) :: ws => runWrites max_dir_size (some (log dir max_dir_size d n).2) ws

/-- Total UTF-8 byte length of a character list. -/
def utf8Len (l : List Char) : Nat :=
  (l.map Char.utf8Size).sum

/-- Rebuild a kept rotation file as the directory entry a second listing of
the directory would observe for it. -/
def entryOfFile (f : FileEntry) : DirEntryModel :=
  ⟨true, some f.name, f.size⟩

@[simp]
theorem sumSizes_nil : sumSizes [] = 0 := rfl

@[simp]
theorem sumSizes_cons (f : FileEntry) (fs : List FileEntry) :
    sumSizes (f :: fs) = f.size + sumSizes fs := by
  simp [sumSizes]

@[simp]
theorem sumSizes_append (xs ys : List FileEntry) :
    sumSizes (xs ++ ys) = sumSizes xs + sumSizes ys := by
  simp [sumSizes]

theorem sumSizes_of_perm {xs ys : List FileEntry} (h : List.Perm xs ys) :
    sumSizes xs = sumSizes ys :=
  (h.map FileEntry.size).sum_eq

theorem sumSizes_of_suffix {s w : List FileEntry} (h : s <:+ w) :
    sumSizes s ≤ sumSizes w := by
  obtain ⟨t, rfl⟩ := h
  simp

theorem shrinkWindow_suffix (B : Nat) (w : List FileEntry) :
    shrinkWindow B w <:+ w := by
  induction w with
  | nil => exact List.suffix_refl _
  | cons f rest ih =>
    by_cases h : B < sumSizes (f :: rest)
    · rw [shrinkWindow, if_pos h]
      exact ih.trans (List.suffix_cons f rest)
    · rw [shrinkWindow, if_neg h]

theorem shrinkWindow_sum_le (B : Nat) (w : List FileEntry) :
    sumSizes (shrinkWindow B w) ≤ B := by
  induction w with
  | nil => exact Nat.zero_le B
  | cons f rest ih =>
    by_cases h : B < sumSizes (f :: rest)
    · rw [shrinkWindow, if_pos h]; exact ih
    · rw [shrinkWindow, if_neg h]; exact Nat.le_of_not_lt h

theorem shrinkWindow_maximal (B : Nat) {w s : List FileEntry}
    (hs : s <:+ w) (hle : sumSizes s ≤ B) : s <:+ shrinkWindow B w := by
  induction w with
  | nil =>
    rw [List.suffix_nil.mp hs]
    exact List.suffix_refl _
  | cons f rest ih =>
    by_cases h : B < sumSizes (f :: rest)
    · rw [shrinkWindow, if_pos h]
      rcases List.suffix_cons_iff.mp hs with heq | htl
      · exact absurd hle (by rw [heq]; omega)
      · exact ih htl
    · rw [shrinkWindow, if_neg h]
      exact hs

theorem shrinkWindow_of_le (B : Nat) {w : List FileEntry}
    (h : sumSizes w ≤ B) : shrinkWindow B w = w := by
  cases w with
  | nil => rfl
  | cons f rest => rw [shrinkWindow, if_neg (Nat.not_lt.mpr h)]

theorem shrinkWindow_append (B : Nat) :
    ∀ xs ys, shrinkWindow B (shrinkWindow B xs ++ ys) = shrinkWindow B (xs ++ ys) := by
  intro xs
  induction xs with
  | nil => intro ys; rfl
  | cons x xs ih =>
    intro ys
    by_cases h : B < sumSizes (x :: xs)
    · rw [show shrinkWindow B (x :: xs) = shrinkWindow B xs from by rw [shrinkWindow, if_pos h]]
      rw [ih ys]
      have h2 : B < sumSizes (x :: (xs ++ ys)) := by
        simp only [sumSizes_cons, sumSizes_append] at h ⊢
        omega
      rw [show (x :: xs) ++ ys = x :: (xs ++ ys) from rfl]
      rw [shrinkWindow, if_pos h2]
    · rw [shrinkWindow, if_neg h]

theorem evictGo_shrinkWindow (B : Nat) :
    ∀ rest xs, evictGo B (shrinkWindow B xs) rest = shrinkWindow B (xs ++ rest) := by
  intro rest
  induction rest with
  | nil => intro xs; rw [evictGo, List.append_nil]
  | cons f rs ih =>
    intro xs
    rw [evictGo, shrinkWindow_append B xs [f], ih (xs ++ [f])]
    rw [List.append_assoc]
    rfl

theorem evictGo_eq_shrinkWindow (B : Nat) (files : List FileEntry) :
    evictGo B [] files = shrinkWindow B files := by
  have h := evictGo_shrinkWindow B files []
  rw [show shrinkWindow B [] = [] from rfl, List.nil_append] at h
  exact h

theorem lexLe_trans : ∀ x y z : List Char,
    lexLe x y = true → lexLe y z = true → lexLe x z = true := by
  intro x
  induction x with
  | nil => intro y z _ _; rfl
  | cons a as ih =>
    intro y z h1 h2
    match y, z with
    | [], _ => simp [lexLe] at h1
    | _ :: _, [] => simp [lexLe] at h2
    | b :: bs, c :: cs =>
      simp only [lexLe] at h1 h2 ⊢
      by_cases hab : a.toNat < b.toNat
      · rw [if_pos hab] at h1
        by_cases hbc : b.toNat < c.toNat
        · rw [if_pos (by omega : a.toNat < c.toNat)]
        · rw [if_neg hbc] at h2
          by_cases hcb : c.toNat < b.toNat
          · rw [if_pos hcb] at h2; exact absurd h2 (by simp)
          · rw [if_pos (by omega : a.toNat < c.toNat)]
      · rw [if_neg hab] at h1
        by_cases hba : b.toNat < a.toNat
        · rw [if_pos hba] at h1; exact absurd h1 (by simp)
        · rw [if_neg hba] at h1
          by_cases hbc : b.toNat < c.toNat
          · rw [if_pos (by omega : a.toNat < c.toNat)]
          · rw [if_neg hbc] at h2
            by_cases hcb : c.toNat < b.toNat
            · rw [if_pos hcb] at h2; exact absurd h2 (by simp)
            · rw [if_neg hcb] at h2
              rw [if_neg (by omega : ¬ a.toNat < c.toNat),
                  if_neg (by omega : ¬ c.toNat < a.toNat)]
              exact ih bs cs h1 h2

theorem lexLe_total : ∀ x y : List Char, lexLe x y = true ∨ lexLe y x = true := by
  intro x
  induction x with
  | nil => intro y; left; rfl
  | cons a as ih =>
    intro y
    match y with
    | [] => right; rfl
    | b :: bs =>
      simp only [lexLe]
      by_cases hab : a.toNat < b.toNat
      · left; rw [if_pos hab]
      · by_cases hba : b.toNat < a.toNat
        · right; rw [if_pos hba]
        · rw [if_neg hab, if_neg hba, if_neg hba, if_neg hab]
          exact ih bs

instance : IsTrans FileEntry fileLe :=
  ⟨fun _ _ _ h1 h2 => lexLe_trans _ _ _ h1 h2⟩

instance : IsTotal FileEntry fileLe :=
  ⟨fun a b => lexLe_total a.name.data b.name.data⟩

theorem sortFiles_perm (files : List FileEntry) : List.Perm (sortFiles files) files :=
  List.perm_insertionSort fileLe files

theorem sortFiles_sorted (files : List FileEntry) : List.Sorted fileLe (sortFiles files) :=
  List.sorted_insertionSort fileLe files

theorem sortFiles_of_sorted {files : List FileEntry} (h : List.Sorted fileLe files) :
    sortFiles files = files :=
  List.Sorted.insertionSort_eq h

theorem selectEntry_keep {e : DirEntryModel} {f : FileEntry}
    (h : selectEntry e = some (some f)) :
    selectEntry (entryOfFile f) = some (some f) := by
  obtain ⟨isf, fn, sz⟩ := e
  cases isf with
  | false => simp [selectEntry] at h
  | true =>
    cases fn with
    | none => simp [selectEntry] at h
    | some nm =>
      simp only [selectEntry, if_true] at h
      by_cases hend : strEndsWith nm ".log" = true
      · rw [if_pos hend] at h
        cases hsl : byteSlice nm 10 with
        | none => simp only [hsl] at h; exact absurd h (by simp)
        | some first10 =>
          simp only [hsl] at h
          by_cases hcd : check_date first10 = true
          · rw [if_pos hcd] at h
            simp only [Option.some.injEq] at h
            subst h
            simp [selectEntry, entryOfFile, hend, hsl, hcd]
          · rw [if_neg hcd] at h
            exact absurd h (by simp)
      · rw [if_neg hend] at h
        exact absurd h (by simp)

theorem collectFiles_mem {entries : List DirEntryModel} {files : List FileEntry}
    (h : collectFiles entries = some files) {f : FileEntry} (hf : f ∈ files) :
    ∃ e ∈ entries, selectEntry e = some (some f) := by
  induction entries generalizing files with
  | nil =>
    simp only [collectFiles, Option.some.injEq] at h
    subst h
    exact absurd hf (by simp)
  | cons e es ih =>
    simp only [collectFiles] at h
    cases hse : selectEntry e with
    | none => rw [hse] at h; exact absurd h (by simp)
    | some o =>
      cases o with
      | none =>
        rw [hse] at h
        obtain ⟨e', he', hs'⟩ := ih h hf
        exact ⟨e', List.mem_cons_of_mem e he', hs'⟩
      | some g =>
        rw [hse] at h
        rw [Option.map_eq_some'] at h
        obtain ⟨fs', hfs', heq⟩ := h
        subst heq
        rcases List.mem_cons.mp hf with rfl | hmem
        · exact ⟨e, List.mem_cons_self e es, hse⟩
        · obtain ⟨e', he', hs'⟩ := ih hfs' hmem
          exact ⟨e', List.mem_cons_of_mem e he', hs'⟩

theorem collectFiles_rebuild : ∀ {l : List FileEntry},
    (∀ f ∈ l, selectEntry (entryOfFile f) = some (some f)) →
    collectFiles (l.map entryOfFile) = some l := by
  intro l
  induction l with
  | nil => intro _; rfl
  | cons f fs ih =>
    intro h
    simp only [List.map_cons, collectFiles, h f (List.mem_cons_self f fs),
      ih (fun g hg => h g (List.mem_cons_of_mem f hg)), Option.map_some']

theorem takeBytes_none : ∀ (cs : List Char) (n : Nat), utf8Len cs < n → takeBytes cs n = none := by
  intro cs
  induction cs with
  | nil =>
    intro n h
    cases n with
    | zero => exact absurd h (by simp)
    | succ m => rfl
  | cons c cs ih =>
    intro n h
    cases n with
    | zero => exact absurd h (by simp)
    | succ m =>
      simp only [takeBytes]
      by_cases hle : c.utf8Size ≤ m + 1
      · rw [ih (m + 1 - c.utf8Size) (by simp only [utf8Len, List.map_cons, List.sum_cons] at h ⊢; omega)]
        rw [if_pos hle]
        rfl
      · rw [if_neg hle]

theorem selectEntry_short_panics {e : DirEntryModel} {nm : String}
    (hfile : e.isFile = true) (hname : e.fileName = some nm)
    (hend : strEndsWith nm ".log" = true) (hshort : utf8Len nm.data < 10) :
    selectEntry e = none := by
  obtain ⟨isf, fn, sz⟩ := e
  simp only at hfile hname
  subst hfile
  subst hname
  simp [selectEntry, byteSlice, hend, takeBytes_none nm.data 10 hshort]

theorem collectFiles_panic {entries : List DirEntryModel} {e : DirEntryModel}
    (he : e ∈ entries) (hp : selectEntry e = none) : collectFiles entries = none := by
  induction entries with
  | nil => exact absurd he (by simp)
  | cons a es ih =>
    rcases List.mem_cons.mp he with rfl | hmem
    · simp only [collectFiles, hp]
    · simp only [collectFiles]
      cases hsa : selectEntry a with
      | none => rfl
      | some o =>
        cases o with
        | none => exact ih hmem
        | some g => rw [ih hmem]; rfl

theorem appendLine_sum : ∀ (fs : List FileEntry) (name : String) (n : Nat),
    sumSizes (appendLine fs name n) = sumSizes fs + n := by
  intro fs name n
  induction fs with
  | nil => simp [appendLine]
  | cons f fs ih =>
    simp only [appendLine]
    by_cases h : f.name = name
    · rw [if_pos h]; simp; omega
    · rw [if_neg h]; simp [ih]; omega

theorem log_sum_le (dir : Option (List FileEntry)) (B : Nat) (d : String) (n : Nat) :
    sumSizes (log dir B d n).2 ≤ B + n := by
  cases dir with
  | none => simp [log, appendLine_sum]
  | some files =>
    simp only [log, appendLine_sum]
    have h := shrinkWindow_sum_le B (sortFiles files)
    rw [evictGo_eq_shrinkWindow]
    omega

theorem runWrites_append (B : Nat) (st : Option (List FileEntry))
    (l1 l2 : List (String × Nat)) :
    runWrites B st (l1 ++ l2) = runWrites B (runWrites B st l1) l2 := by
  induction l1 generalizing st with
  | nil => rfl
  | cons w ws ih =>
    obtain ⟨d, n⟩ := w
    simp only [List.cons_append, runWrites]
    exact ih _

theorem check_size_sum_le {entries : List DirEntryModel} {B : Nat} {rem : List FileEntry}
    (hc : check_size entries B = some rem) : sumSizes rem ≤ B := by
  rw [check_size] at hc
  cases hg : get_sorted_files_from_dir entries with
  | none => rw [hg] at hc; exact absurd hc (by simp)
  | some sorted =>
    rw [hg] at hc
    simp only [Option.map_some'] at hc
    rw [← Option.some.inj hc, evictGo_eq_shrinkWindow]
    exact shrinkWindow_sum_le B sorted

/-- Claim C1, counterexample: a directory holding a single rotation file of 10
bytes with a budget of 5 bytes. The claim says the one newest file must
survive the pass; `check_size` deletes it and leaves the directory empty. -/
theorem check_size_newest_overbudget_deleted :
    check_size [⟨true, some "2020_08_01.log", 10⟩] 5 = some [] ∧
      some ([] : List FileEntry) ≠ some [(⟨"2020_08_01.log", 10⟩ : FileEntry)] := by
  decide

/-- Claim C1 (amended): after one `check_size` pass over a sorted list of
rotation files with budget `B`, the remaining files are exactly the longest
(newest contiguous) suffix whose cumulative size is ≤ B — with no exception
for an over-budget newest file: it is deleted like any other (only a suffix of
total size ≤ B, possibly empty, remains). -/
theorem check_size_longest_fitting_suffix (entries : List DirEntryModel) (B : Nat)
    (sorted rem : List FileEntry)
    (hs : get_sorted_files_from_dir entries = some sorted)
    (hc : check_size entries B = some rem) :
    rem <:+ sorted ∧ sumSizes rem ≤ B ∧
      ∀ s, s <:+ sorted → sumSizes s ≤ B → s <:+ rem := by
  have hrem : rem = shrinkWindow B sorted := by
    rw [check_size, hs] at hc
    simp only [Option.map_some'] at hc
    rw [← Option.some.inj hc, evictGo_eq_shrinkWindow]
  subst hrem
  exact ⟨shrinkWindow_suffix B sorted, shrinkWindow_sum_le B sorted,
    fun s h1 h2 => shrinkWindow_maximal B h1 h2⟩

/-- Witness for C1 (amended): the spec's own scenario — three 400-byte files
dated 2020-08-01/02/03 with budget 1000 — leaves the suffix 02, 03. -/
theorem check_size_longest_fitting_suffix_witness :
    ([⟨"2020_08_02.log", 400⟩, ⟨"2020_08_03.log", 400⟩] : List FileEntry) <:+
        [⟨"2020_08_01.log", 400⟩, ⟨"2020_08_02.log", 400⟩, ⟨"2020_08_03.log", 400⟩] ∧
      sumSizes [⟨"2020_08_02.log", 400⟩, ⟨"2020_08_03.log", 400⟩] ≤ 1000 := by
  have h := check_size_longest_fitting_suffix
    [⟨true, some "2020_08_01.log", 400⟩, ⟨true, some "2020_08_02.log", 400⟩,
     ⟨true, some "2020_08_03.log", 400⟩] 1000
    [⟨"2020_08_01.log", 400⟩, ⟨"2020_08_02.log", 400⟩, ⟨"2020_08_03.log", 400⟩]
    [⟨"2020_08_02.log", 400⟩, ⟨"2020_08_03.log", 400⟩] (by decide) (by decide)
  exact ⟨h.1, h.2.1⟩

/-- Claim C2, counterexample: the worker receives a message and the write
pipeline fails with a plainly recoverable error; the claim says the worker
stays `running`, but the `expect` in the worker loop panics the worker task. -/
theorem worker_write_failure_panics :
    workerHandle (LoggingCommands.message ⟨" INFO  ", "hello"⟩)
        (fun _ => IOOutcome.ioError "temporary failure") =
      WorkerNext.panicked "Logging service failed when receiving message." ∧
    workerHandle (LoggingCommands.message ⟨" INFO  ", "hello"⟩)
        (fun _ => IOOutcome.ioError "temporary failure") ≠ WorkerNext.running := by
  exact ⟨rfl, by decide⟩

/-- Claim C2 (amended): every write-pipeline failure — recoverable or not —
makes the worker panic via
`log(message, &options).expect("Logging service failed when receiving message.")`;
the worker never remains `running` after a failed write. -/
theorem worker_write_failure_always_panics (body : MessageBody)
    (logResult : MessageBody → IOOutcome) (e : String)
    (h : logResult body = IOOutcome.ioError e) :
    workerHandle (LoggingCommands.message body) logResult =
      WorkerNext.panicked "Logging service failed when receiving message." := by
  simp [workerHandle, h]

/-- Witness for C2 (amended). -/
theorem worker_write_failure_always_panics_witness :
    workerHandle (LoggingCommands.message ⟨" WARN  ", "w"⟩)
        (fun _ => IOOutcome.ioError "disk full") =
      WorkerNext.panicked "Logging service failed when receiving message." :=
  worker_write_failure_always_panics ⟨" WARN  ", "w"⟩
    (fun _ => IOOutcome.ioError "disk full") "disk full" rfl

/-- Claim C3, counterexample: a log call made after the worker has exited (the
channel's consuming end is closed). The claim says the caller gets a distinct
non-fatal error; instead the `expect` on `send` panics the calling thread. -/
theorem frontend_send_after_exit_panics :
    frontendLog (fun _ => SendOutcome.closed) Level.info "boot" =
        CallerOutcome.panickedCaller "Failed to send message to logging service." ∧
      frontendLog (fun _ => SendOutcome.closed) Level.info "boot" ≠
        CallerOutcome.enqueued := by
  exact ⟨rfl, by decide⟩

/-- Claim C3 (amended): every log call whose `send` finds the channel closed
panics the calling thread via
`send(...).expect("Failed to send message to logging service.")`;
no error value is returned to the caller. -/
theorem frontend_send_closed_always_panics (send : LoggingCommands → SendOutcome)
    (lvl : Level) (text : String)
    (h : send (LoggingCommands.message ⟨levelTag lvl, text⟩) = SendOutcome.closed) :
    frontendLog send lvl text =
      CallerOutcome.panickedCaller "Failed to send message to logging service." := by
  simp [frontendLog, h]

/-- Witness for C3 (amended). -/
theorem frontend_send_closed_always_panics_witness :
    frontendLog (fun _ => SendOutcome.closed) Level.error "x" =
      CallerOutcome.panickedCaller "Failed to send message to logging service." :=
  frontend_send_closed_always_panics (fun _ => SendOutcome.closed) Level.error "x" rfl

/-- Claim C4: after a `check_size` pass that returns `Ok`, the remaining
matched rotation files total at most `max_dir_size`; and after any sequence
of writes the directory exceeds `max_dir_size` by at most the size of the
single most recently written line (the in-progress write is not counted by
the pre-write enforcement pass). -/
theorem check_size_budget_and_write_overshoot :
    (∀ (entries : List DirEntryModel) (B : Nat) (rem : List FileEntry),
        check_size entries B = some rem → sumSizes rem ≤ B) ∧
    (∀ (B : Nat) (st : Option (List FileEntry)) (ws : List (String × Nat))
        (d : String) (n : Nat) (final : List FileEntry),
        runWrites B st (ws ++ [(d, n)]) = some final → sumSizes final ≤ B + n) := by
  constructor
  · intro entries B rem hc
    exact check_size_sum_le hc
  · intro B st ws d n final h
    rw [runWrites_append] at h
    simp only [runWrites] at h
    rw [← Option.some.inj h]
    exact log_sum_le _ B d n

/-- Witness for C4. -/
theorem check_size_budget_and_write_overshoot_witness :
    sumSizes [⟨"2020_08_02.log", 400⟩, ⟨"2020_08_03.log", 400⟩] ≤ 1000 ∧
      sumSizes [⟨"2020_08_01.log", 5⟩] ≤ 10 + 5 :=
  ⟨check_size_budget_and_write_overshoot.1
      [⟨true, some "2020_08_01.log", 400⟩, ⟨true, some "2020_08_02.log", 400⟩,
       ⟨true, some "2020_08_03.log", 400⟩] 1000
      [⟨"2020_08_02.log", 400⟩, ⟨"2020_08_03.log", 400⟩] (by decide),
   check_size_budget_and_write_overshoot.2 10 none [] "2020_08_01" 5
      [⟨"2020_08_01.log", 5⟩] (by decide)⟩

/-- Claim C5, counterexample: `enabled` is `metadata.level() <= Level::Info`
under the `log` crate's ordering `Error < Warn < Info < Debug < Trace`, so it
returns `false` for `Trace` and `Debug` — not `true` for every level as the
claim states. -/
theorem enabled_rejects_trace_and_debug :
    enabled Level.trace = false ∧ enabled Level.debug = false := by
  decide

/-- Claim C5 (amended): the fixed inbound filter accepts exactly the levels
`Error`, `Warn` and `Info` (those with `level <= Info` in the crate's
ordering) and rejects `Debug` and `Trace`; it is a function of the record's
level only, independent of any externally configured maximum level. -/
theorem enabled_iff_at_most_info (lvl : Level) :
    enabled lvl = true ↔ (lvl = Level.error ∨ lvl = Level.warn ∨ lvl = Level.info) := by
  cases lvl <;> decide

/-- Claim C6: the quota enforcer is idempotent — listing the directory left by
a successful `check_size` pass and running the pass again with the same budget
deletes nothing: it returns exactly the same file set. -/
theorem check_size_idempotent (entries : List DirEntryModel) (B : Nat)
    (rem : List FileEntry) (hc : check_size entries B = some rem) :
    check_size (rem.map entryOfFile) B = some rem := by
  rw [check_size] at hc
  cases hg : get_sorted_files_from_dir entries with
  | none => rw [hg] at hc; exact absurd hc (by simp)
  | some sorted =>
    rw [hg] at hc
    simp only [Option.map_some'] at hc
    have hrem : rem = shrinkWindow B sorted := by
      rw [← Option.some.inj hc, evictGo_eq_shrinkWindow]
    rw [get_sorted_files_from_dir] at hg
    cases hcf : collectFiles entries with
    | none => rw [hcf] at hg; exact absurd hg (by simp)
    | some files =>
      rw [hcf] at hg
      simp only [Option.map_some'] at hg
      have hsortedeq : sortFiles files = sorted := Option.some.inj hg
      have hkeep : ∀ f ∈ rem, selectEntry (entryOfFile f) = some (some f) := by
        intro f hf
        have hf1 : f ∈ sorted := (shrinkWindow_suffix B sorted).subset (hrem ▸ hf)
        have hf2 : f ∈ files :=
          ((sortFiles_perm files).mem_iff).mp (hsortedeq.symm ▸ hf1)
        obtain ⟨e, _, hse⟩ := collectFiles_mem hcf hf2
        exact selectEntry_keep hse
      have hsortedrem : List.Sorted fileLe rem := by
        have h1 : List.Pairwise fileLe sorted := hsortedeq ▸ sortFiles_sorted files
        have h2 : rem.Sublist sorted := by
          rw [hrem]; exact (shrinkWindow_suffix B sorted).sublist
        exact h1.sublist h2
      have hsum : sumSizes rem ≤ B := by
        rw [hrem]; exact shrinkWindow_sum_le B sorted
      rw [check_size, get_sorted_files_from_dir, collectFiles_rebuild hkeep]
      simp only [Option.map_some']
      rw [sortFiles_of_sorted hsortedrem, evictGo_eq_shrinkWindow,
        shrinkWindow_of_le B hsum]

/-- Witness for C6: re-running the pass on the directory left by the spec's
three-file scenario deletes nothing. -/
theorem check_size_idempotent_witness :
    check_size
        (List.map entryOfFile [⟨"2020_08_02.log", 400⟩, ⟨"2020_08_03.log", 400⟩]) 1000 =
      some [⟨"2020_08_02.log", 400⟩, ⟨"2020_08_03.log", 400⟩] :=
  check_size_idempotent
    [⟨true, some "2020_08_01.log", 400⟩, ⟨true, some "2020_08_02.log", 400⟩,
     ⟨true, some "2020_08_03.log", 400⟩] 1000
    [⟨"2020_08_02.log", 400⟩, ⟨"2020_08_03.log", 400⟩] (by decide)

/-- Claim C7, counterexample: with budget 0 a zero-size rotation file is NOT
deleted — `total_size` (0) never exceeds `max_dir_size` (0), so the pass keeps
it, contradicting "deletes every existing matched rotation file". -/
theorem check_size_zero_budget_keeps_empty_file :
    check_size [⟨true, some "2020_08_01.log", 0⟩] 0 =
        some [(⟨"2020_08_01.log", 0⟩ : FileEntry)] ∧
      some [(⟨"2020_08_01.log", 0⟩ : FileEntry)] ≠ some ([] : List FileEntry) := by
  decide

/-- Claim C7 (amended): with `max_dir_size = 0`, a `check_size` pass deletes
every matched rotation file of nonzero size, regardless of its date —
including the newest; every file that remains has size 0. -/
theorem check_size_zero_budget_deletes_positive (entries : List DirEntryModel)
    (rem : List FileEntry) (f : FileEntry) (hc : check_size entries 0 = some rem)
    (hf : f ∈ rem) : f.size = 0 := by
  have hsum : sumSizes rem ≤ 0 := check_size_sum_le hc
  have hz : (rem.map FileEntry.size).sum = 0 := Nat.le_zero.mp hsum
  exact List.sum_eq_zero_iff.mp hz f.size (List.mem_map_of_mem FileEntry.size hf)

/-- Witness for C7 (amended). -/
theorem check_size_zero_budget_deletes_positive_witness :
    (⟨"2020_08_01.log", 0⟩ : FileEntry).size = 0 :=
  check_size_zero_budget_deletes_positive
    [⟨true, some "2020_07_31.log", 7⟩, ⟨true, some "2020_08_01.log", 0⟩]
    [⟨"2020_08_01.log", 0⟩] ⟨"2020_08_01.log", 0⟩ (by decide) (by decide)

/-- Claim C8: each write first branches on directory existence — `createDir`
happens exactly when the directory is missing, the quota pass (on the exact
pre-write file list, the new line not counted) exactly when it exists — and
whichever of the two happens is the single action preceding the open, write
and sync of the target file. -/
theorem log_branch_exclusive_and_ordered (dir : Option (List FileEntry)) (B : Nat)
    (d : String) (n : Nat) :
    ((WriteEvent.createDir ∈ (log dir B d n).1) ↔ dir = none) ∧
    (∀ fs, (WriteEvent.runQuota fs ∈ (log dir B d n).1) ↔ dir = some fs) ∧
    (∃ e, (log dir B d n).1 =
      [e, WriteEvent.openFile (logFileName d), WriteEvent.writeLine n,
        WriteEvent.syncAll]) := by
  cases dir with
  | none =>
    refine ⟨by simp [log], fun fs => ?_, ⟨WriteEvent.createDir, rfl⟩⟩
    simp [log]
  | some files =>
    refine ⟨by simp [log], fun fs => ?_, ⟨WriteEvent.runQuota files, rfl⟩⟩
    simp only [log, List.mem_cons, List.not_mem_nil, or_false, Option.some.injEq]
    constructor
    · rintro (h | h | h | h) <;> first
        | (injection h with h; exact h.symm)
        | exact absurd h (by simp)
    · rintro rfl; left; rfl

/-- Claim C9: every line written to disk is the timestamp prefix, then the
fixed 7-character level tag built by the frontend, then the text, then a
terminating newline, with the exact tags `" ERROR "`, `" DEBUG "`, `" INFO  "`,
`" TRACE "`, `" WARN  "`. -/
theorem log_line_format (lvl : Level) (ts txt : String) :
    (formatLine ts ⟨levelTag lvl, txt⟩).data =
        ts.data ++ (levelTag lvl).data ++ txt.data ++ ['\n'] ∧
      (levelTag lvl).length = 7 ∧
      levelTag Level.error = " ERROR " ∧ levelTag Level.debug = " DEBUG " ∧
      levelTag Level.info = " INFO  " ∧ levelTag Level.trace = " TRACE " ∧
      levelTag Level.warn = " WARN  " := by
  refine ⟨?_, ?_, rfl, rfl, rfl, rfl, rfl⟩
  · simp [formatLine, String.data_append]
  · cases lvl <;> rfl

/-- Claim C10: a regular file whose name ends in `.log` but is shorter than 10
bytes (such as `a.log`) makes `get_sorted_files_from_dir` — and hence every
`check_size` pass over that directory — panic on the `&filename[0..10]` slice;
the file-selection step is not total over directory listings. -/
theorem get_sorted_files_short_name_panics (entries : List DirEntryModel)
    (e : DirEntryModel) (nm : String) (B : Nat) (he : e ∈ entries)
    (hfile : e.isFile = true) (hname : e.fileName = some nm)
    (hend : strEndsWith nm ".log" = true) (hshort : utf8Len nm.data < 10) :
    get_sorted_files_from_dir entries = none ∧ check_size entries B = none := by
  have hp : selectEntry e = none := selectEntry_short_panics hfile hname hend hshort
  have hcf : collectFiles entries = none := collectFiles_panic he hp
  constructor
  · rw [get_sorted_files_from_dir, hcf]; rfl
  · rw [check_size, get_sorted_files_from_dir, hcf]; rfl

/-- Witness for C10: the listing containing only the 5-byte name `a.log`. -/
theorem get_sorted_files_short_name_panics_witness :
    get_sorted_files_from_dir [⟨true, some "a.log", 7⟩] = none ∧
      check_size [⟨true, some "a.log", 7⟩] 3 = none :=
  get_sorted_files_short_name_panics [⟨true, some "a.log", 7⟩]
    ⟨true, some "a.log", 7⟩ "a.log" 3 (by decide) rfl rfl (by decide) (by decide)
